import Mathlib

/-!
Shallow embedding of the `upgrade` module of the nano_ui_skill repository
(`src/generators/upgrade.ts`): the CSS/Tailwind token scanners, the
generic-pattern analyzer and scorer, the migration mapper, the project
analyzer and the upgrade generator, together with theorems about the
claims of the specification.

Strings are modelled as their underlying `List Char`; JavaScript objects
(`Record<string, string>`) are modelled as association lists in insertion
order, with assignment updating in place (`recordSet`) exactly as JS
property assignment keeps the original key position.  The regular
expressions of the source are embedded as explicit character-level
matchers that mirror the backtracking behaviour of the JS regex engine on
the concrete patterns used by the code.
-/

namespace NanoUI

/-! ### Character classes (the regex character classes used by the source) -/

/-- JS `\s` restricted to the characters that can occur in the scanned text
(space, tab, newline, carriage return, vertical tab, form feed). -/
def isSpaceChar (c : Char) : Bool :=
  c = ' ' || c = '\t' || c = '\n' || c = '\r' || c = '\x0b' || c = '\x0c'

/-- JS `\w`: `[A-Za-z0-9_]`. -/
def isWordChar (c : Char) : Bool :=
  c.isAlphanum || c = '_'

/-- The class `[\w-]` used for custom-property names. -/
def isWordHyphen (c : Char) : Bool :=
  isWordChar c || c = '-'

/-- The class `[0-9a-fA-F]` of hex digits. -/
def isHexChar (c : Char) : Bool :=
  c.isDigit || ('a' ≤ c && c ≤ 'f') || ('A' ≤ c && c ≤ 'F')

/-- The class `[A-Za-z]`. -/
def isAsciiLetter (c : Char) : Bool :=
  ('a' ≤ c && c ≤ 'z') || ('A' ≤ c && c ≤ 'Z')

/-- The class `[A-Za-z\s]` used for font-name candidates. -/
def isLetterSpace (c : Char) : Bool :=
  isAsciiLetter c || isSpaceChar c

/-- The class `['"]` of JS string quotes. -/
def isQuote (c : Char) : Bool :=
  c = '\'' || c = '"'

/-- JS `String.prototype.toLowerCase` on the ASCII range (the only range the
scanned hex colors and reference lists use). -/
def lowerChar (c : Char) : Char :=
  if 65 ≤ c.toNat ∧ c.toNat ≤ 90 then Char.ofNat (c.toNat + 32) else c

/-- Lowercasing of a string, character by character. -/
def lowerStr (s : String) : String :=
  (s.data.map lowerChar).asString

/-! ### Generic string helpers -/

/-- Leading and trailing whitespace removal (JS `String.prototype.trim`). -/
def trimChars (cs : List Char) : List Char :=
  ((cs.dropWhile isSpaceChar).reverse.dropWhile isSpaceChar).reverse

/-- JS `String.prototype.includes` / `indexOf ≠ -1`: substring containment,
on character lists. -/
def isSubstr (needle hay : List Char) : Bool :=
  needle.isPrefixOf hay ||
    match hay with
    | [] => false
    | _ :: t => isSubstr needle t

/-- Index of the first occurrence of `needle` in `hay`
(JS `String.prototype.indexOf`), if any. -/
def indexOfSub (needle hay : List Char) : Option Nat :=
  if needle.isPrefixOf hay then some 0
  else match hay with
    | [] => none
    | _ :: t => (indexOfSub needle t).map (· + 1)

/-- JS `String.prototype.endsWith`, on embedded strings. -/
def strEndsWith (s suffix : String) : Bool :=
  suffix.data.reverse.isPrefixOf s.data.reverse

/-! ### Records (JS `Record<string, string>` objects, insertion-ordered) -/

/-- A JS string-keyed object: an association list in insertion order.
(Reordering of integer-like keys by the JS engine is below the level of
this model; all keys produced by the code carry non-digit characters or
are treated uniformly by the claims.) -/
abbrev Record := List (String × String)

/-- Property read: `r[k]`, as an `Option`. -/
def recordGet? (r : Record) (k : String) : Option String :=
  (r.find? (fun kv => kv.1 = k)).map (·.2)

/-- Key presence test (`k in r`). -/
def recordHasKey (r : Record) (k : String) : Bool :=
  r.any (fun kv => kv.1 = k)

/-- Property assignment `r[k] = v`: updates in place if the key exists
(keeping its position), appends otherwise — exactly JS object semantics. -/
def recordSet (r : Record) (k v : String) : Record :=
  if recordHasKey r k then
    r.map (fun kv => if kv.1 = k then (k, v) else kv)
  else
    r ++ [(k, v)]

/-- JS `Object.keys`. -/
def recordKeys (r : Record) : List String :=
  r.map (·.1)

/-- JS `Object.values`. -/
def recordValues (r : Record) : List String :=
  r.map (·.2)

/-! ### The fixed reference lists of the source -/

/-- The `GENERIC_COLORS` constant: generic AI colors to detect. -/
def GENERIC_COLORS : List String :=
  [ "#3b82f6", "#2563eb", "#1d4ed8", "#60a5fa", "#93c5fd",
    "#6366f1", "#4f46e5", "#4338ca", "#818cf8", "#a5b4fc",
    "#8b5cf6", "#7c3aed", "#6d28d9", "#a78bfa", "#c4b5fd",
    "#64748b", "#475569", "#334155", "#94a3b8", "#cbd5e1",
    "#667eea", "#764ba2", "#6b8dd6", "#8e37d7" ]

/-- The `GENERIC_FONTS` constant: generic fonts to detect. -/
def GENERIC_FONTS : List String :=
  [ "Inter", "system-ui", "ui-sans-serif", "Segoe UI", "Roboto",
    "Helvetica Neue", "Arial", "sans-serif", "SF Pro" ]

/-! ### The CSS scanner (`scanCSS`)

Each JS regex of the source is embedded as a character-level matcher
`…MatchAt` (attempting a match at the current position, returning the
captures and the remaining input) plus a fuel-driven scan loop that, like
`RegExp.exec` with the `g` flag, retries at the next character on failure
and resumes after the match on success.  Every successful match consumes
at least one character, so fuel `length + 1` makes the loops exact. -/

/-- Attempt of the regex `--([\w-]+):\s*([^;]+);` at the current position:
returns the `name` and `value` captures and the input remaining after the
final `;`.  The greedy `\s*` backtracks one character when everything
before the `;` is whitespace, exactly as the JS engine does. -/
def varMatchAt (cs : List Char) : Option ((List Char × List Char) × List Char) :=
  match cs with
  | '-' :: '-' :: tl =>
    let name := tl.takeWhile isWordHyphen
    if name = [] then none
    else
      match tl.drop name.length with
      | ':' :: rest =>
        match rest.findIdx? (· = ';') with
        | none => none
        | some k =>
          if k = 0 then none
          else
            let w := (rest.takeWhile isSpaceChar).length
            let value := (rest.take k).drop (min w (k - 1))
            some ((name, value), rest.drop (k + 1))
      | _ => none
  | _ => none

/-- The `varRegex.exec` loop of `scanCSS`: all `(name, value)` captures in
match order. -/
def cssVarLoop (fuel : Nat) (cs : List Char) : List (List Char × List Char) :=
  match fuel with
  | 0 => []
  | fuel + 1 =>
    match cs with
    | [] => []
    | _ :: tl =>
      match varMatchAt cs with
      | some (nv, rest) => nv :: cssVarLoop fuel rest
      | none => cssVarLoop fuel tl

/-- All matches of `#[0-9a-fA-F]{3,8}` (`String.match` with `g`): a `#`
followed by at least three hex digits matches greedily up to eight. -/
def hexMatches (fuel : Nat) (cs : List Char) : List (List Char) :=
  match fuel with
  | 0 => []
  | fuel + 1 =>
    match cs with
    | [] => []
    | c :: tl =>
      if c = '#' then
        let run := tl.takeWhile isHexChar
        if 3 ≤ run.length then
          let taken := run.take 8
          ('#' :: taken) :: hexMatches fuel (tl.drop taken.length)
        else
          hexMatches fuel tl
      else
        hexMatches fuel tl

/-- Attempt of `["']?([A-Za-z\s]+)["']?` at the current position: returns
the whole match (quotes included) and the rest.  When the head is a quote
but no letter/space follows, both the quoted and the unquoted alternative
fail, as in the JS engine. -/
def fontTokenMatchAt (cs : List Char) : Option (List Char × List Char) :=
  match cs with
  | [] => none
  | c :: tl =>
    let q1 : List Char := if isQuote c then [c] else []
    let body := if isQuote c then tl else cs
    let run := body.takeWhile isLetterSpace
    if run = [] then none
    else
      match body.drop run.length with
      | c2 :: t2 =>
        if isQuote c2 then some (q1 ++ run ++ [c2], t2)
        else some (q1 ++ run, c2 :: t2)
      | [] => some (q1 ++ run, [])

/-- The `value.match(fontRegex)` loop: every whole match, in order. -/
def fontTokens (fuel : Nat) (cs : List Char) : List (List Char) :=
  match fuel with
  | 0 => []
  | fuel + 1 =>
    match cs with
    | [] => []
    | _ :: tl =>
      match fontTokenMatchAt cs with
      | some (tok, rest) => tok :: fontTokens fuel rest
      | none => fontTokens fuel tl

/-- The `fontMatch.forEach` body of `scanCSS`: strip quotes, trim, and add
the name if non-empty and not already present. -/
def addFonts (fonts : List String) (value : List Char) : List String :=
  (fontTokens (value.length + 1) value).foldl
    (fun fs tok =>
      let fontName := (trimChars (tok.filter (fun c => ¬ isQuote c))).asString
      if fontName ≠ "" ∧ fontName ∉ fs then fs ++ [fontName] else fs)
    fonts

/-- Result of scanning CSS content (`CSSScanResult`). -/
structure CSSScanResult where
  colors : List String
  fonts : List String
  vars : Record    -- the `variables` field of the source (`variables` is reserved in Lean)
  spacing : List String
deriving DecidableEq, Repr

/-- Processing of one `varRegex` capture inside `scanCSS`: store the
variable, then categorize its value as color / font / spacing. -/
def processVar (st : CSSScanResult) (nv : List Char × List Char) : CSSScanResult :=
  let name := nv.1
  let value := nv.2
  let st := { st with
    vars := recordSet st.vars ("--" ++ name.asString) (trimChars value).asString }
  let st :=
    if isSubstr "#".data value || isSubstr "rgb".data value || isSubstr "hsl".data value then
      { st with colors :=
          st.colors ++ (hexMatches (value.length + 1) value).map (fun m => lowerStr m.asString) }
    else st
  let st :=
    if isSubstr "font".data name || isSubstr "family".data name then
      { st with fonts := addFonts st.fonts value }
    else st
  if isSubstr "spacing".data name || isSubstr "space".data name || isSubstr "gap".data name then
    { st with spacing := st.spacing ++ [(trimChars value).asString] }
  else st

/-- The `scanCSS` function: extract custom properties, categorize their
values, then collect the inline hex colors not already present. -/
def scanCSS (css : String) : CSSScanResult :=
  let cs := css.data
  let st := (cssVarLoop (cs.length + 1) cs).foldl processVar ⟨[], [], [], []⟩
  let colors :=
    (hexMatches (cs.length + 1) cs).foldl
      (fun acc m =>
        let hex := lowerStr m.asString
        if hex ∈ acc then acc else acc ++ [hex])
      st.colors
  { st with colors := colors }

/-! ### The pattern matcher and scorer (`analyzeForGenericPatterns`) -/

/-- The closed set of issue kinds (`DesignIssue['type']`). -/
inductive IssueType where
  | genericColor
  | genericFont
  | lowContrast
  | blandPalette
deriving DecidableEq, Repr

/-- Issue severities (`DesignIssue['severity']`). -/
inductive Severity where
  | high
  | medium
  | low
deriving DecidableEq, Repr

/-- Issue detected in design (`DesignIssue`). -/
structure DesignIssue where
  type : IssueType
  severity : Severity
  description : String
  value : String
  suggestion : String
deriving DecidableEq, Repr

/-- The `generic-color` issue pushed by `analyzeForGenericPatterns`. -/
def genericColorIssue (color : String) : DesignIssue :=
  ⟨.genericColor, .high, "Generic AI color detected: " ++ color, color,
    "Replace with a brand-derived color with clear rationale"⟩

/-- The `generic-font` issue pushed by `analyzeForGenericPatterns`. -/
def genericFontIssue (font : String) : DesignIssue :=
  ⟨.genericFont, .medium, "Generic font detected: " ++ font, font,
    "Consider a characterful font like Fraunces, DM Sans, or Source Serif"⟩

/-- The `bland-palette` issue pushed by `analyzeForGenericPatterns`. -/
def blandPaletteIssue (colors : List String) : DesignIssue :=
  ⟨.blandPalette, .medium, "Limited color palette detected",
    String.intercalate ", " colors,
    "Add accent colors and ensure primary/secondary/accent variety"⟩

/-- Membership test `GENERIC_COLORS.includes c`. -/
def isGenericColor (c : String) : Bool :=
  GENERIC_COLORS.contains c

/-- The test `GENERIC_FONTS.some(gf => font.toLowerCase().includes(gf.toLowerCase()))`. -/
def matchesGenericFont (font : String) : Bool :=
  GENERIC_FONTS.any (fun gf => isSubstr (lowerStr gf).data (lowerStr font).data)

/-- Result of pattern analysis (`PatternAnalysis`). -/
structure PatternAnalysis where
  score : Int
  issues : List DesignIssue
  strengths : List String
deriving DecidableEq, Repr

/-- The `scan.colors.forEach` fold of `analyzeForGenericPatterns`:
issues appended and 15 points subtracted per generic color. -/
def colorIssuesFold (colors : List String) (acc : List DesignIssue × Int) :
    List DesignIssue × Int :=
  colors.foldl
    (fun acc color =>
      if isGenericColor (lowerStr color) then
        (acc.1 ++ [genericColorIssue color], acc.2 - 15)
      else acc)
    acc

/-- The `scan.fonts.forEach` fold of `analyzeForGenericPatterns`:
issues appended and 10 points subtracted per generic font. -/
def fontIssuesFold (fonts : List String) (acc : List DesignIssue × Int) :
    List DesignIssue × Int :=
  fonts.foldl
    (fun acc font =>
      if matchesGenericFont font then
        (acc.1 ++ [genericFontIssue font], acc.2 - 10)
      else acc)
    acc

/-- Analysis of a scan result: the body of `analyzeForGenericPatterns`
after the initial `scanCSS` call. -/
def analyzeScan (scan : CSSScanResult) : PatternAnalysis :=
  let acc := colorIssuesFold scan.colors ([], 100)
  let acc := fontIssuesFold scan.fonts acc
  let acc :=
    if 0 < scan.colors.length ∧ scan.colors.length < 3 then
      (acc.1 ++ [blandPaletteIssue scan.colors], acc.2 - 10)
    else acc
  let uniqueColors := scan.colors.filter (fun c => ¬ isGenericColor (lowerStr c))
  let strengths :=
    if 0 < uniqueColors.length then
      [toString uniqueColors.length ++ " unique colors found"]
    else []
  let uniqueFonts := scan.fonts.filter (fun f => ¬ matchesGenericFont f)
  let strengths :=
    if 0 < uniqueFonts.length then
      strengths ++ ["Characterful fonts: " ++ String.intercalate ", " uniqueFonts]
    else strengths
  ⟨max 0 acc.2, acc.1, strengths⟩

/-- The `analyzeForGenericPatterns` function. -/
def analyzeForGenericPatterns (css : String) : PatternAnalysis :=
  analyzeScan (scanCSS css)

/-! ### The Tailwind config scanner (`scanTailwindConfig`) -/

/-- The depth-counter brace scan of `scanTailwindConfig`: starting from the
first character (the opening brace), returns the index at which the depth
returns to zero, or `none` when the input ends first. -/
def braceEnd (cs : List Char) (depth : Int) (i : Nat) : Option Nat :=
  match cs with
  | [] => none
  | c :: tl =>
    let depth := if c = '{' then depth + 1 else depth
    let depth := if c = '}' then depth - 1 else depth
    if depth = 0 then some i else braceEnd tl depth (i + 1)

/-- The `colors:` block extraction of `scanTailwindConfig`: the text
strictly between the balanced braces following the first `colors:`, or the
empty string when the token, the brace, or the balancing brace is absent
(`end` stays at `braceStart` in the source, so the slice is empty). -/
def tailwindColorBlock (config : String) : List Char :=
  match indexOfSub "colors:".data config.data with
  | none => []
  | some cstart =>
    let afterColors := config.data.drop cstart
    match afterColors.findIdx? (· = '{') with
    | none => []
    | some braceStart =>
      match braceEnd (afterColors.drop braceStart) 0 0 with
      | none => []
      | some r => ((afterColors.drop (braceStart + 1)).take (r - 1))

/-- Attempt of the nested-group regex `(\w+):\s*\{([\s\S]*?)\}` at the
current position: the lazy body captures up to the first closing brace. -/
def nestedMatchAt (cs : List Char) : Option ((List Char × List Char) × List Char) :=
  let w := cs.takeWhile isWordChar
  if w = [] then none
  else
    match cs.drop w.length with
    | ':' :: rest =>
      let sp := rest.takeWhile isSpaceChar
      match rest.drop sp.length with
      | '{' :: rest2 =>
        match rest2.findIdx? (· = '}') with
        | none => none
        | some k => some ((w, rest2.take k), rest2.drop (k + 1))
      | _ => none
    | _ => none

/-- The `nestedRegex.exec` loop: all `(prefix, body)` captures. -/
def nestedLoop (fuel : Nat) (cs : List Char) : List (List Char × List Char) :=
  match fuel with
  | 0 => []
  | fuel + 1 =>
    match cs with
    | [] => []
    | _ :: tl =>
      match nestedMatchAt cs with
      | some (pc, rest) => pc :: nestedLoop fuel rest
      | none => nestedLoop fuel tl

/-- Attempt of `['"]?(\d+)['"]?:\s*['"]?(#[0-9a-fA-F]{3,8})['"]?` at the
current position: returns the shade digits and the hex capture. -/
def nestedColorMatchAt (cs : List Char) : Option ((List Char × List Char) × List Char) :=
  let cs1 := match cs with
    | c :: t => if isQuote c then t else cs
    | [] => cs
  let d := cs1.takeWhile Char.isDigit
  if d = [] then none
  else
    let cs2 := cs1.drop d.length
    let cs3 := match cs2 with
      | c :: t => if isQuote c then t else cs2
      | [] => cs2
    match cs3 with
    | ':' :: rest =>
      let sp := rest.takeWhile isSpaceChar
      let rest2 := rest.drop sp.length
      let rest3 := match rest2 with
        | c :: t => if isQuote c then t else rest2
        | [] => rest2
      match rest3 with
      | '#' :: hx =>
        let run := hx.takeWhile isHexChar
        if 3 ≤ run.length then
          let taken := run.take 8
          let rest4 := hx.drop taken.length
          let rest5 := match rest4 with
            | c :: t => if isQuote c then t else rest4
            | [] => rest4
          some ((d, '#' :: taken), rest5)
        else none
      | _ => none
    | _ => none

/-- The `nestedColors.exec` loop over one nested body. -/
def nestedColorLoop (fuel : Nat) (cs : List Char) : List (List Char × List Char) :=
  match fuel with
  | 0 => []
  | fuel + 1 =>
    match cs with
    | [] => []
    | _ :: tl =>
      match nestedColorMatchAt cs with
      | some (dh, rest) => dh :: nestedColorLoop fuel rest
      | none => nestedColorLoop fuel tl

/-- The negative lookahead `(?!\s*\})`: `true` when `\s*\}` matches here,
which makes the lookahead (and so the overall match) fail. -/
def lookaheadBlocks (cs : List Char) : Bool :=
  match cs.dropWhile isSpaceChar with
  | '}' :: _ => true
  | _ => false

/-- Backtracking over the greedy `{3,8}` quantifier and the optional
closing quote of the flat-color regex, longest first: for each candidate
digit count `L` (from `min run.length 8` down to 3) the engine first tries
consuming a closing quote and then the empty alternative, accepting the
first variant whose lookahead `(?!\s*\})` succeeds. -/
def flatTryLens (w hx : List Char) (L : Nat) :
    Option ((List Char × List Char) × List Char) :=
  match L with
  | 0 => none
  | L + 1 =>
    if L + 1 < 3 then none
    else
      let taken := hx.take (L + 1)
      let rest0 := hx.drop (L + 1)
      let attempt :=
        match rest0 with
        | c :: t =>
          if isQuote c then
            if ¬ lookaheadBlocks t then some ((w, '#' :: taken), t)
            else if ¬ lookaheadBlocks rest0 then some ((w, '#' :: taken), rest0)
            else none
          else if ¬ lookaheadBlocks rest0 then some ((w, '#' :: taken), rest0)
          else none
        | [] => if ¬ lookaheadBlocks rest0 then some ((w, '#' :: taken), rest0) else none
      match attempt with
      | some r => some r
      | none => flatTryLens w hx L

/-- Attempt of the flat-color regex
`(\w+):\s*['"]?(#[0-9a-fA-F]{3,8})['"]?(?!\s*\})` at the current
position. -/
def flatColorMatchAt (cs : List Char) : Option ((List Char × List Char) × List Char) :=
  let w := cs.takeWhile isWordChar
  if w = [] then none
  else
    match cs.drop w.length with
    | ':' :: rest =>
      let sp := rest.takeWhile isSpaceChar
      let rest2 := rest.drop sp.length
      let rest3 := match rest2 with
        | c :: t => if isQuote c then t else rest2
        | [] => rest2
      match rest3 with
      | '#' :: hx =>
        let run := hx.takeWhile isHexChar
        if 3 ≤ run.length then flatTryLens w hx (min run.length 8) else none
      | _ => none
    | _ => none

/-- The `flatColorRegex.exec` loop, with the source's skip condition: a
flat key already present, or claimed by a nested `key-shade` entry, is not
overwritten. -/
def flatLoop (fuel : Nat) (cs : List Char) (acc : Record) : Record :=
  match fuel with
  | 0 => acc
  | fuel + 1 =>
    match cs with
    | [] => acc
    | _ :: tl =>
      match flatColorMatchAt cs with
      | some (kh, rest) =>
        let key := kh.1.asString
        let acc :=
          if ¬ recordHasKey acc key ∧
              ¬ (recordKeys acc).any (fun k => (key ++ "-").isPrefixOf k) then
            recordSet acc key kh.2.asString
          else acc
        flatLoop fuel rest acc
      | none => flatLoop fuel tl acc

/-- Attempt of the font-block regex `fontFamily:\s*\{([^}]+)\}` at the
current position (non-global: used through `findFontBlock`). -/
def fontBlockAt (cs : List Char) : Option (List Char) :=
  if "fontFamily:".data.isPrefixOf cs then
    let rest := cs.drop "fontFamily:".data.length
    let sp := rest.takeWhile isSpaceChar
    match rest.drop sp.length with
    | '{' :: rest2 =>
      match rest2.findIdx? (· = '}') with
      | none => none
      | some 0 => none
      | some k => some (rest2.take k)
    | _ => none
  else none

/-- First match of the font-block regex in the whole config. -/
def findFontBlock (fuel : Nat) (cs : List Char) : Option (List Char) :=
  match fuel with
  | 0 => none
  | fuel + 1 =>
    match fontBlockAt cs with
    | some b => some b
    | none =>
      match cs with
      | [] => none
      | _ :: tl => findFontBlock fuel tl

/-- Attempt of the quoted-font regex `['"]([A-Za-z\s]+)['"],?` at the
current position: both quotes are required, the trailing comma optional. -/
def quotedFontMatchAt (cs : List Char) : Option (List Char × List Char) :=
  match cs with
  | [] => none
  | c :: tl =>
    if ¬ isQuote c then none
    else
      let run := tl.takeWhile isLetterSpace
      if run = [] then none
      else
        match tl.drop run.length with
        | [] => none
        | c2 :: t2 =>
          if ¬ isQuote c2 then none
          else
            match t2 with
            | [] => some (run, t2)
            | c3 :: t3 => if c3 = ',' then some (run, t3) else some (run, t2)

/-- The `fontRegex.exec` loop of `scanTailwindConfig`, with the trim,
non-empty, dedup and generic-exclusion conditions of the source (note the
exclusion list is `GENERIC_FONTS.slice(1)`, skipping the first entry). -/
def quotedFontLoop (fuel : Nat) (cs : List Char) (fonts : List String) : List String :=
  match fuel with
  | 0 => fonts
  | fuel + 1 =>
    match cs with
    | [] => fonts
    | _ :: tl =>
      match quotedFontMatchAt cs with
      | some (run, rest) =>
        let fontName := (trimChars run).asString
        let fonts :=
          if fontName ≠ "" ∧ fontName ∉ fonts ∧ fontName ∉ GENERIC_FONTS.drop 1 then
            fonts ++ [fontName]
          else fonts
        quotedFontLoop fuel rest fonts
      | none => quotedFontLoop fuel tl fonts

/-- Tailwind config scan result (`TailwindScanResult`). -/
structure TailwindScanResult where
  colors : Record
  fonts : List String
  spacing : Record
deriving DecidableEq, Repr

/-- The `scanTailwindConfig` function: extract colors from the balanced
`colors:` block (nested groups first, then flat entries) and fonts from
the `fontFamily:` block; `spacing` is never filled by the source. -/
def scanTailwindConfig (config : String) : TailwindScanResult :=
  let colorBlock := tailwindColorBlock config
  let colors : Record :=
    if colorBlock = [] then []
    else
      let nested := nestedLoop (colorBlock.length + 1) colorBlock
      let colors := nested.foldl
        (fun acc pc =>
          (nestedColorLoop (pc.2.length + 1) pc.2).foldl
            (fun acc2 dh =>
              recordSet acc2 (pc.1.asString ++ "-" ++ dh.1.asString) dh.2.asString)
            acc)
        []
      flatLoop (colorBlock.length + 1) colorBlock colors
  let fonts :=
    match findFontBlock (config.data.length + 1) config.data with
    | none => []
    | some block => quotedFontLoop (block.length + 1) block []
  ⟨colors, fonts, []⟩

/-! ### The migration mapper (`generateMigration`) -/

/-- A color role entry of the improved palette (`{value, rationale}`). -/
structure ColorToken where
  value : String
  rationale : String
deriving DecidableEq, Repr

/-- The six-role color palette (`ColorPalette` of the model client). -/
structure ColorPalette where
  primary : ColorToken
  secondary : ColorToken
  accent : ColorToken
  background : ColorToken
  surface : ColorToken
  text : ColorToken
deriving DecidableEq, Repr

/-- A typography role entry (`{family, weights, rationale}`). -/
structure FontToken where
  family : String
  weights : List Nat
  rationale : String
deriving DecidableEq, Repr

/-- The two-role typography palette (`TypographyPalette`). -/
structure TypographyPalette where
  display : FontToken
  body : FontToken
deriving DecidableEq, Repr

/-- A `{from, to}` replacement pair of `cssReplacements` (`from` is a Lean
keyword, so the fields are `fromS` / `toS`). -/
structure Replacement where
  fromS : String
  toS : String
deriving DecidableEq, Repr

/-- Migration map for upgrading the design system (`Migration`). -/
structure Migration where
  colorMappings : Record
  fontMappings : Record
  cssReplacements : List Replacement
deriving DecidableEq, Repr

/-- The current extracted tokens passed to `generateMigration`. -/
structure CurrentTokens where
  colors : Record
  fonts : List String
deriving DecidableEq, Repr

/-- The improved target tokens passed to `generateMigration`. -/
structure ImprovedTokens where
  colors : ColorPalette
  typography : TypographyPalette
deriving DecidableEq, Repr

/-- The `improvedColors` role values in the fixed `Object.keys` order
primary, secondary, accent, background, surface, text. -/
def roleValues (p : ColorPalette) : List String :=
  [p.primary.value, p.secondary.value, p.accent.value,
   p.background.value, p.surface.value, p.text.value]

/-- The `colorValues.forEach` body of `generateMigration`, acting on the
`(colorMappings, cssReplacements)` accumulator at an indexed value. -/
def migColorStep (roles : List String) (acc : Record × List Replacement)
    (iv : Nat × String) : Record × List Replacement :=
  let normalizedColor := lowerStr iv.2
  if isGenericColor normalizedColor then
    let target := roles.getD (iv.1 % roles.length) ""
    (recordSet acc.1 normalizedColor target, acc.2 ++ [⟨normalizedColor, target⟩])
  else acc

/-- The `current.fonts.forEach` body of `generateMigration`. -/
def migFontStep (body : String) (acc : Record × List Replacement)
    (font : String) : Record × List Replacement :=
  if matchesGenericFont font then
    (recordSet acc.1 font body, acc.2 ++ [⟨font, body⟩])
  else acc

/-- The `generateMigration` function: rotate generic current colors onto
the six roles by full position index, map generic fonts to the body
family, and append one replacement pair per occurrence. -/
def generateMigration (current : CurrentTokens) (improved : ImprovedTokens) : Migration :=
  let colorValues := recordValues current.colors
  let roles := roleValues improved.colors
  let acc := colorValues.enum.foldl (migColorStep roles) ([], [])
  let accF := current.fonts.foldl
    (migFontStep improved.typography.body.family) ([], acc.2)
  ⟨acc.1, accF.1, accF.2⟩

/-! ### The project analyzer (`analyzeProject`) -/

/-- The merged extracted tokens of a `ProjectReport`. -/
structure ExtractedTokens where
  colors : Record
  fonts : List String
deriving DecidableEq, Repr

/-- Project analysis report (`ProjectReport`). -/
structure ProjectReport where
  currentScore : Int
  issues : List DesignIssue
  recommendations : List String
  extractedTokens : ExtractedTokens
deriving DecidableEq, Repr

/-- The accumulator of the `analyzeProject` file loop. -/
structure ProjectAcc where
  allColors : Record
  allFonts : List String
  allIssues : List DesignIssue
  totalScore : Int
  fileCount : Nat
deriving DecidableEq, Repr

/-- One iteration of the `analyzeProject` loop over `Object.entries(files)`. -/
def projectStep (st : ProjectAcc) (fc : String × String) : ProjectAcc :=
  if strEndsWith fc.1 ".css" || strEndsWith fc.1 ".scss" then
    let scan := scanCSS fc.2
    let analysis := analyzeForGenericPatterns fc.2
    let allColors := scan.colors.foldl
      (fun ac c => recordSet ac ("color-" ++ toString (recordKeys ac).length) c)
      st.allColors
    { st with
      allColors := allColors
      allFonts := st.allFonts ++ scan.fonts.filter (fun f => f ∉ st.allFonts)
      allIssues := st.allIssues ++ analysis.issues
      totalScore := st.totalScore + analysis.score
      fileCount := st.fileCount + 1 }
  else if isSubstr "tailwind.config".data fc.1.data then
    let scan := scanTailwindConfig fc.2
    { st with
      allColors := scan.colors.foldl (fun ac kv => recordSet ac kv.1 kv.2) st.allColors
      allFonts := st.allFonts ++ scan.fonts.filter (fun f => f ∉ st.allFonts) }
  else st

/-- JS `Math.round(t / n)` for the non-negative score average: the floor of
`t / n + 1/2`, computed exactly with integer floor division. -/
def mathRoundDiv (t : Int) (n : Nat) : Int :=
  Int.fdiv (2 * t + n) (2 * n)

/-- The `analyzeProject` function (the `async` wrapper is pure data flow). -/
def analyzeProject (files : List (String × String)) : ProjectReport :=
  let st := files.foldl projectStep ⟨[], [], [], 0, 0⟩
  let avgScore := if 0 < st.fileCount then mathRoundDiv st.totalScore st.fileCount else 50
  let recommendations :=
    (if st.allIssues.any (fun i => i.type = .genericColor) then
      ["Replace generic Tailwind colors with brand-derived palette"] else []) ++
    (if st.allIssues.any (fun i => i.type = .genericFont) then
      ["Consider characterful fonts like Fraunces, DM Sans, or Source Serif"] else []) ++
    (if avgScore < 60 then
      ["Run /nano-ui:design-system to generate a unique design system"] else [])
  ⟨avgScore, st.allIssues, recommendations, ⟨st.allColors, st.allFonts⟩⟩

/-! ### The upgrade generator (`generateUpgrade`) -/

/-- Upgrade generation options (`UpgradeOptions`); the optional
preserve-lists are modelled as lists, an absent list behaving exactly like
the empty one in the source (the `if (options.preserveColors)` guard skips
a filter that removes nothing, and `!options.preserveFonts?.includes(f)`
keeps every font). -/
structure UpgradeOptions where
  files : List (String × String)
  preserveColors : List String
  preserveFonts : List String
deriving DecidableEq, Repr

/-- Upgrade generation result (`UpgradeResult`). -/
structure UpgradeResult where
  migration : Migration
  newColors : ColorPalette
  newTypography : TypographyPalette
  report : ProjectReport
deriving DecidableEq, Repr

/-- The hard-coded improved palette of `generateUpgrade`. -/
def improvedColorsConst : ColorPalette :=
  ⟨⟨"#3D8F64", "Warm forest green for trust and growth"⟩,
   ⟨"#F5A623", "Warm amber for energy and approachability"⟩,
   ⟨"#E05A47", "Coral accent for calls to action"⟩,
   ⟨"#FFFCF9", "Warm off-white for comfort"⟩,
   ⟨"#FFFFFF", "Clean white for content areas"⟩,
   ⟨"#25221E", "Warm dark brown for readability"⟩⟩

/-- The hard-coded improved typography of `generateUpgrade`. -/
def improvedTypographyConst : TypographyPalette :=
  ⟨⟨"Fraunces", [600, 700], "Quirky serif for personality"⟩,
   ⟨"Source Sans 3", [400, 500, 600], "Readable and professional"⟩⟩

/-- The `generateUpgrade` function: analyze, filter out preserved colors
(by exact value) and fonts, then build the migration. -/
def generateUpgrade (options : UpgradeOptions) : UpgradeResult :=
  let report := analyzeProject options.files
  let filteredColors :=
    report.extractedTokens.colors.filter (fun kv => ¬ options.preserveColors.contains kv.2)
  let filteredFonts :=
    report.extractedTokens.fonts.filter (fun f => ¬ options.preserveFonts.contains f)
  let migration := generateMigration ⟨filteredColors, filteredFonts⟩
    ⟨improvedColorsConst, improvedTypographyConst⟩
  ⟨migration, improvedColorsConst, improvedTypographyConst, report⟩

/-! ### Specification-side definitions used to state the claims -/

/-- The `(from, to)` pairs the color part of the migration inserts (in
order), for a role list `roles` and an indexed value sequence: one pair per
value that case-insensitively matches a reference generic color, mapping
its lowercased form to `roles[i % roles.length]`. -/
def migColorPairs (roles : List String) (l : List (Nat × String)) : List (String × String) :=
  l.filterMap (fun iv =>
    if isGenericColor (lowerStr iv.2) then
      some (lowerStr iv.2, roles.getD (iv.1 % roles.length) "")
    else none)

/-- The `(from, to)` pairs the font part of the migration inserts: every
generic current font mapped to the body family. -/
def migFontPairs (body : String) (fonts : List String) : List (String × String) :=
  fonts.filterMap (fun f => if matchesGenericFont f then some (f, body) else none)

/-- Stated from the spec: the pairs of claim C3, with the fixed role order
primary, secondary, accent, background, surface, text and the rotation
`roles[i % 6]` over the full position `i` of the value. -/
def specColorPairs (vs : List String) (p : ColorPalette) : List (String × String) :=
  vs.enum.filterMap (fun iv =>
    if isGenericColor (lowerStr iv.2) then
      some (lowerStr iv.2, (roleValues p).getD (iv.1 % 6) "")
    else none)

/-- Last-write-wins reading of an insertion sequence (spec: "last write
wins if the same source hex recurs"). -/
def lastAssoc (pairs : List (String × String)) (k : String) : Option String :=
  (pairs.reverse.find? (fun q => q.1 = k)).map (·.2)

/-- The `.css`/`.scss` entries of a files map, in order. -/
def cssFilesOf (files : List (String × String)) : List (String × String) :=
  files.filter (fun fc => strEndsWith fc.1 ".css" || strEndsWith fc.1 ".scss")

/-- Shape invariant of every extracted font name: non-empty, made of
ASCII letters and whitespace only, with no leading or trailing
whitespace. -/
def fontShapeOK (f : String) : Prop :=
  f ≠ "" ∧ f.data.all isLetterSpace = true ∧ trimChars f.data = f.data

/-! ### Basic lemmas: lowercasing and trimming -/

/-- Decoding `Char.ofNat` at a value below the surrogate range. -/
theorem toNat_ofNat_small (n : Nat) (h : n < 55296) : (Char.ofNat n).toNat = n := by
  have hv : n.isValidChar := Or.inl h
  rw [Char.ofNat, dif_pos hv]
  rfl

/-- ASCII lowercasing is idempotent. -/
theorem lowerChar_idem (c : Char) : lowerChar (lowerChar c) = lowerChar c := by
  unfold lowerChar
  by_cases h : 65 ≤ c.toNat ∧ c.toNat ≤ 90
  · rw [if_pos h]
    have h2 : (Char.ofNat (c.toNat + 32)).toNat = c.toNat + 32 :=
      toNat_ofNat_small _ (by omega)
    rw [if_neg (by rw [h2]; omega)]
  · rw [if_neg h, if_neg h]

/-- Round-trip of `List.asString` and `String.data`. -/
theorem data_asString (l : List Char) : l.asString.data = l := rfl

/-- Lowercasing a string is idempotent. -/
theorem lowerStr_idem (s : String) : lowerStr (lowerStr s) = lowerStr s := by
  unfold lowerStr
  rw [data_asString, List.map_map]
  exact congrArg _ (List.map_congr_left (fun c _ => lowerChar_idem c))

/-- The trimmed list is a sublist of the original. -/
theorem trimChars_sublist (cs : List Char) : List.Sublist (trimChars cs) cs := by
  unfold trimChars
  have h1 : List.Sublist (cs.dropWhile isSpaceChar) cs := List.dropWhile_sublist _
  have h2 : List.Sublist ((cs.dropWhile isSpaceChar).reverse.dropWhile isSpaceChar)
      (cs.dropWhile isSpaceChar).reverse := List.dropWhile_sublist _
  have h3 := List.reverse_sublist.mpr h2
  rw [List.reverse_reverse] at h3
  exact h3.trans h1

/-- Every element of the trimmed list is an element of the original. -/
theorem all_trimChars (p : Char → Bool) (cs : List Char) (h : cs.all p = true) :
    (trimChars cs).all p = true := by
  rw [List.all_eq_true] at h ⊢
  exact fun c hc => h c ((trimChars_sublist cs).subset hc)

/-- The head of a `dropWhile` result never satisfies the predicate. -/
theorem head?_dropWhile (p : α → Bool) :
    ∀ (l : List α) (c : α), (l.dropWhile p).head? = some c → p c = false := by
  intro l
  induction l with
  | nil => intro c h; simp [List.dropWhile] at h
  | cons a l ih =>
    intro c h
    by_cases ha : p a
    · rw [List.dropWhile_cons_of_pos ha] at h
      exact ih c h
    · rw [List.dropWhile_cons_of_neg ha] at h
      simp only [List.head?_cons, Option.some.injEq] at h
      subst h
      exact Bool.eq_false_iff.mpr ha

/-- Dropping a satisfied run twice is the same as once. -/
theorem dropWhile_dropWhile_self (p : α → Bool) (l : List α) :
    (l.dropWhile p).dropWhile p = l.dropWhile p := by
  cases h : l.dropWhile p with
  | nil => simp
  | cons c t =>
    have hc : p c = false := head?_dropWhile p l c (by rw [h]; rfl)
    rw [List.dropWhile_cons_of_neg (by simp [hc])]

/-- Trimming is idempotent. -/
theorem trimChars_idem (cs : List Char) : trimChars (trimChars cs) = trimChars cs := by
  by_cases hY : (cs.dropWhile isSpaceChar).reverse.dropWhile isSpaceChar = []
  · unfold trimChars
    rw [hY]
    rfl
  · have hdrop :
        (((cs.dropWhile isSpaceChar).reverse.dropWhile isSpaceChar).reverse).dropWhile
          isSpaceChar =
        ((cs.dropWhile isSpaceChar).reverse.dropWhile isSpaceChar).reverse := by
      cases hrev : ((cs.dropWhile isSpaceChar).reverse.dropWhile isSpaceChar).reverse with
      | nil => simp
      | cons c t =>
        have hc : isSpaceChar c = false := by
          have hhead :
              (((cs.dropWhile isSpaceChar).reverse.dropWhile isSpaceChar).reverse).head? =
                some c := by rw [hrev]; rfl
          rw [List.head?_reverse] at hhead
          obtain ⟨pre, hpre⟩ :=
            (List.dropWhile_suffix (l := (cs.dropWhile isSpaceChar).reverse)
              (p := isSpaceChar))
          have hlast :
              ((cs.dropWhile isSpaceChar).reverse.dropWhile isSpaceChar).getLast? =
                ((cs.dropWhile isSpaceChar).reverse).getLast? := by
            conv_rhs => rw [← hpre]
            exact (List.getLast?_append_of_ne_nil _ hY).symm
          rw [hlast, List.getLast?_reverse] at hhead
          exact head?_dropWhile isSpaceChar cs c hhead
        rw [List.dropWhile_cons_of_neg (by simp [hc])]
    show ((((trimChars cs).dropWhile isSpaceChar).reverse).dropWhile isSpaceChar).reverse =
      trimChars cs
    unfold trimChars
    rw [hdrop, List.reverse_reverse, dropWhile_dropWhile_self]

/-- A trimmed list has the trimmed-fixpoint property. -/
theorem trimChars_of_trimmed (cs : List Char) :
    trimChars (trimChars cs).asString.data = (trimChars cs).asString.data := by
  rw [data_asString]
  exact trimChars_idem cs

/-! ### Record lemmas -/

/-- Reading a cons cell. -/
theorem recordGet?_cons (a b : String) (r : Record) (k : String) :
    recordGet? ((a, b) :: r) k = if a = k then some b else recordGet? r k := by
  by_cases h : a = k <;> simp [recordGet?, List.find?_cons, h]

/-- Updating an existing key, then reading it back. -/
theorem recordGet?_mapUpd_self (r : Record) (k v : String)
    (h : recordHasKey r k = true) :
    recordGet? (r.map (fun kv => if kv.1 = k then (k, v) else kv)) k = some v := by
  induction r with
  | nil => simp [recordHasKey] at h
  | cons p r ih =>
    by_cases hp : p.1 = k
    · simp only [List.map_cons, if_pos hp]
      rw [recordGet?_cons, if_pos rfl]
    · simp only [recordHasKey, List.any_cons, Bool.or_eq_true, decide_eq_true_eq] at h
      rcases h with h | h
      · exact absurd h hp
      · simp only [List.map_cons, if_neg hp]
        have : ((p.1, p.2) : String × String) = p := rfl
        rw [show (p : String × String) = (p.1, p.2) from rfl, recordGet?_cons, if_neg hp]
        exact ih h

/-- Updating key `k` does not change reads at other keys. -/
theorem recordGet?_mapUpd_ne (r : Record) (k v k' : String) (h : k' ≠ k) :
    recordGet? (r.map (fun kv => if kv.1 = k then (k, v) else kv)) k' = recordGet? r k' := by
  induction r with
  | nil => rfl
  | cons p r ih =>
    have hpeta : (p : String × String) = (p.1, p.2) := rfl
    by_cases hp : p.1 = k
    · simp only [List.map_cons, if_pos hp]
      rw [recordGet?_cons]
      conv_rhs => rw [hpeta, recordGet?_cons]
      rw [if_neg (fun hk => h hk.symm), if_neg (by rw [hp]; exact fun hk => h hk.symm)]
      exact ih
    · simp only [List.map_cons, if_neg hp]
      conv_lhs => rw [hpeta, recordGet?_cons]
      conv_rhs => rw [hpeta, recordGet?_cons]
      by_cases hk' : p.1 = k'
      · rw [if_pos hk', if_pos hk']
      · rw [if_neg hk', if_neg hk']
        exact ih

/-- A missing key reads as `none`. -/
theorem recordGet?_eq_none (r : Record) (k : String) (h : recordHasKey r k = false) :
    recordGet? r k = none := by
  cases hfind : List.find? (fun kv : String × String => kv.1 = k) r with
  | none => simp [recordGet?, hfind]
  | some kv =>
    exfalso
    have hmem := List.mem_of_find?_eq_some hfind
    have hkv := List.find?_some hfind
    simp only [decide_eq_true_eq] at hkv
    have : recordHasKey r k = true := by
      simp only [recordHasKey, List.any_eq_true, decide_eq_true_eq]
      exact ⟨kv, hmem, hkv⟩
    rw [this] at h
    exact absurd h (by simp)

/-- Characterization of reads after a JS property assignment. -/
theorem recordGet?_recordSet (r : Record) (k v k' : String) :
    recordGet? (recordSet r k v) k' = if k' = k then some v else recordGet? r k' := by
  unfold recordSet
  by_cases hk : recordHasKey r k
  · rw [if_pos hk]
    by_cases h : k' = k
    · subst h
      rw [if_pos rfl]
      exact recordGet?_mapUpd_self r k' v hk
    · rw [if_neg h]
      exact recordGet?_mapUpd_ne r k v k' h
  · rw [if_neg hk]
    by_cases h : k' = k
    · subst h
      have h1 : List.find? (fun kv : String × String => kv.1 = k') r = none := by
        have := recordGet?_eq_none r k' (Bool.eq_false_iff.mpr hk)
        cases hfind : List.find? (fun kv : String × String => kv.1 = k') r with
        | none => rfl
        | some kv => rw [recordGet?, hfind] at this; exact absurd this (by simp)
      simp [recordGet?, List.find?_append, h1, List.find?]
    · have h2 : List.find? (fun kv : String × String => kv.1 = k') [(k, v)] = none := by
        simp [List.find?_cons, show ¬ (k = k') from fun hk2 => h hk2.symm]
      simp [recordGet?, List.find?_append, h2, if_neg h]

/-- Assignment never removes keys, and adds at most `k`. -/
theorem mem_keys_recordSet (r : Record) (k v k' : String) :
    k' ∈ recordKeys (recordSet r k v) ↔ k' ∈ recordKeys r ∨ k' = k := by
  unfold recordSet recordKeys
  by_cases hk : recordHasKey r k
  · rw [if_pos hk]
    rw [List.map_map]
    have hmap : r.map ((fun kv : String × String => kv.1) ∘
        (fun kv => if kv.1 = k then (k, v) else kv)) = r.map (fun kv => kv.1) := by
      refine List.map_congr_left (fun kv _ => ?_)
      by_cases hkv : kv.1 = k <;> simp [hkv]
    rw [hmap]
    constructor
    · exact Or.inl
    · rintro (h | h)
      · exact h
      · subst h
        simp only [recordHasKey, List.any_eq_true, decide_eq_true_eq] at hk
        obtain ⟨kv, hkv, hkvk⟩ := hk
        exact List.mem_map.mpr ⟨kv, hkv, hkvk⟩
  · rw [if_neg hk, List.map_append]
    simp

/-- Keys of an insertion fold come from the initial record or the inserted
pairs. -/
theorem mem_keys_foldl_set (pairs : List (String × String)) (init : Record) (k : String)
    (h : k ∈ recordKeys (pairs.foldl (fun r p => recordSet r p.1 p.2) init)) :
    k ∈ recordKeys init ∨ ∃ p ∈ pairs, p.1 = k := by
  induction pairs generalizing init with
  | nil => exact Or.inl h
  | cons q pairs ih =>
    rw [List.foldl_cons] at h
    rcases ih (recordSet init q.1 q.2) h with h' | h'
    · rcases (mem_keys_recordSet init q.1 q.2 k).mp h' with h'' | h''
      · exact Or.inl h''
      · exact Or.inr ⟨q, List.mem_cons_self q pairs, h''.symm⟩
    · obtain ⟨p, hp, hpk⟩ := h'
      exact Or.inr ⟨p, List.mem_cons_of_mem q hp, hpk⟩

/-- Last-write-wins: reading an insertion fold finds the value of the last
pair with the requested key, the initial record acting as fallback. -/
theorem recordGet?_foldl_set (pairs : List (String × String)) (init : Record) (k : String) :
    recordGet? (pairs.foldl (fun r p => recordSet r p.1 p.2) init) k =
      (lastAssoc pairs k).or (recordGet? init k) := by
  induction pairs generalizing init with
  | nil => simp [lastAssoc]
  | cons q pairs ih =>
    rw [List.foldl_cons, ih]
    unfold lastAssoc
    rw [List.reverse_cons, List.find?_append]
    cases hfind : pairs.reverse.find? (fun p => p.1 = k) with
    | some p => simp [hfind]
    | none =>
      simp only [hfind, Option.none_or, Option.map_none]
      rw [recordGet?_recordSet]
      by_cases hq : q.1 = k
      · simp [List.find?, hq, Option.or]
      · have : ¬ k = q.1 := fun hk => hq hk.symm
        simp [List.find?, hq, this]


/-! ### Migration fold characterization -/

/-- The color fold of `generateMigration`: inserts the `migColorPairs`
into the mapping and appends one replacement per pair. -/
theorem migColorFold (roles : List String) (l : List (Nat × String))
    (acc : Record × List Replacement) :
    l.foldl (migColorStep roles) acc =
      ((migColorPairs roles l).foldl (fun r p => recordSet r p.1 p.2) acc.1,
       acc.2 ++ (migColorPairs roles l).map (fun p => ⟨p.1, p.2⟩)) := by
  induction l generalizing acc with
  | nil => simp [migColorPairs]
  | cons iv l ih =>
    rw [List.foldl_cons, ih]
    by_cases h : isGenericColor (lowerStr iv.2) <;>
      simp [migColorStep, migColorPairs, List.filterMap_cons, h, List.append_assoc]

/-- The font fold of `generateMigration`: inserts the `migFontPairs`. -/
theorem migFontFold (body : String) (fonts : List String)
    (acc : Record × List Replacement) :
    fonts.foldl (migFontStep body) acc =
      ((migFontPairs body fonts).foldl (fun r p => recordSet r p.1 p.2) acc.1,
       acc.2 ++ (migFontPairs body fonts).map (fun p => ⟨p.1, p.2⟩)) := by
  induction fonts generalizing acc with
  | nil => simp [migFontPairs]
  | cons f fonts ih =>
    rw [List.foldl_cons, ih]
    by_cases h : matchesGenericFont f <;>
      simp [migFontStep, migFontPairs, List.filterMap_cons, h, List.append_assoc]

/-- The three components of a generated migration, in closed form. -/
theorem generateMigration_eq (current : CurrentTokens) (improved : ImprovedTokens) :
    generateMigration current improved =
      ⟨(migColorPairs (roleValues improved.colors)
          (recordValues current.colors).enum).foldl (fun r p => recordSet r p.1 p.2) [],
       (migFontPairs improved.typography.body.family current.fonts).foldl
          (fun r p => recordSet r p.1 p.2) [],
       (migColorPairs (roleValues improved.colors)
          (recordValues current.colors).enum).map (fun p => ⟨p.1, p.2⟩) ++
       (migFontPairs improved.typography.body.family current.fonts).map
          (fun p => ⟨p.1, p.2⟩)⟩ := by
  dsimp only [generateMigration]
  rw [migColorFold]
  dsimp only
  rw [migFontFold]
  simp

/-- The six role values, with `% 6` written out: `migColorPairs` at a
`roleValues` list is the specification-side pair list of claim C3. -/
theorem migColorPairs_roleValues (p : ColorPalette) (vs : List String) :
    migColorPairs (roleValues p) vs.enum = specColorPairs vs p := by
  unfold migColorPairs specColorPairs roleValues
  rfl

/-! ### Analyzer characterization -/

/-- Closed form of the color fold of the analyzer. -/
theorem colorIssuesFold_eq (colors : List String) (acc : List DesignIssue × Int) :
    colorIssuesFold colors acc =
      (acc.1 ++ (colors.filter (fun c => isGenericColor (lowerStr c))).map genericColorIssue,
       acc.2 - 15 * ((colors.filter (fun c => isGenericColor (lowerStr c))).length : Int)) := by
  induction colors generalizing acc with
  | nil => simp [colorIssuesFold]
  | cons c colors ih =>
    unfold colorIssuesFold at ih ⊢
    rw [List.foldl_cons]
    by_cases h : isGenericColor (lowerStr c)
    · rw [if_pos h, ih, List.filter_cons_of_pos (by simpa using h)]
      simp only [Prod.mk.injEq, List.map_cons, List.length_cons]
      exact ⟨by simp [List.append_assoc], by push_cast; ring⟩
    · rw [if_neg h, ih, List.filter_cons_of_neg (by simpa using h)]

/-- Closed form of the font fold of the analyzer. -/
theorem fontIssuesFold_eq (fonts : List String) (acc : List DesignIssue × Int) :
    fontIssuesFold fonts acc =
      (acc.1 ++ (fonts.filter matchesGenericFont).map genericFontIssue,
       acc.2 - 10 * ((fonts.filter matchesGenericFont).length : Int)) := by
  induction fonts generalizing acc with
  | nil => simp [fontIssuesFold]
  | cons f fonts ih =>
    unfold fontIssuesFold at ih ⊢
    rw [List.foldl_cons]
    by_cases h : matchesGenericFont f
    · rw [if_pos h, ih, List.filter_cons_of_pos (by simpa using h)]
      simp only [Prod.mk.injEq, List.map_cons, List.length_cons]
      exact ⟨by simp [List.append_assoc], by push_cast; ring⟩
    · rw [if_neg h, ih, List.filter_cons_of_neg (by simpa using h)]

/-- The issue list of an analysis: generic-color issues in color-scan
order, then generic-font issues, then the optional bland-palette issue. -/
theorem analyzeScan_issues (scan : CSSScanResult) :
    (analyzeScan scan).issues =
      (scan.colors.filter (fun c => isGenericColor (lowerStr c))).map genericColorIssue ++
      (scan.fonts.filter matchesGenericFont).map genericFontIssue ++
      (if 0 < scan.colors.length ∧ scan.colors.length < 3 then
        [blandPaletteIssue scan.colors] else []) := by
  unfold analyzeScan
  rw [colorIssuesFold_eq]
  dsimp only
  rw [fontIssuesFold_eq]
  by_cases h : 0 < scan.colors.length ∧ scan.colors.length < 3 <;>
    simp [h, List.append_assoc]

/-- The score of an analysis: 100 minus 15 per generic color, 10 per
generic font and 10 for a bland palette, clamped at 0. -/
theorem analyzeScan_score (scan : CSSScanResult) :
    (analyzeScan scan).score =
      max 0 (100
        - 15 * ((scan.colors.filter (fun c => isGenericColor (lowerStr c))).length : Int)
        - 10 * ((scan.fonts.filter matchesGenericFont).length : Int)
        - (if 0 < scan.colors.length ∧ scan.colors.length < 3 then 10 else 0)) := by
  unfold analyzeScan
  rw [colorIssuesFold_eq]
  dsimp only
  rw [fontIssuesFold_eq]
  by_cases h : 0 < scan.colors.length ∧ scan.colors.length < 3 <;> simp [h]


/-! ### Scanner invariants -/

/-- The colors component of one variable-processing step. -/
theorem processVar_colors (st : CSSScanResult) (nv : List Char × List Char) :
    (processVar st nv).colors =
      if isSubstr "#".data nv.2 || isSubstr "rgb".data nv.2 || isSubstr "hsl".data nv.2 then
        st.colors ++ (hexMatches (nv.2.length + 1) nv.2).map (fun m => lowerStr m.asString)
      else st.colors := by
  by_cases h1 : (isSubstr "#".data nv.2 || isSubstr "rgb".data nv.2 ||
      isSubstr "hsl".data nv.2) = true <;>
    by_cases h2 : (isSubstr "font".data nv.1 || isSubstr "family".data nv.1) = true <;>
      by_cases h3 : (isSubstr "spacing".data nv.1 || isSubstr "space".data nv.1 ||
          isSubstr "gap".data nv.1) = true <;>
        simp [processVar, h1, h2, h3]

/-- The fonts component of one variable-processing step. -/
theorem processVar_fonts (st : CSSScanResult) (nv : List Char × List Char) :
    (processVar st nv).fonts =
      if isSubstr "font".data nv.1 || isSubstr "family".data nv.1 then
        addFonts st.fonts nv.2
      else st.fonts := by
  by_cases h1 : (isSubstr "#".data nv.2 || isSubstr "rgb".data nv.2 ||
      isSubstr "hsl".data nv.2) = true <;>
    by_cases h2 : (isSubstr "font".data nv.1 || isSubstr "family".data nv.1) = true <;>
      by_cases h3 : (isSubstr "spacing".data nv.1 || isSubstr "space".data nv.1 ||
          isSubstr "gap".data nv.1) = true <;>
        simp [processVar, h1, h2, h3]

/-- Colors added by a variable-processing step are lowercased. -/
theorem lower_inv_processVar (st : CSSScanResult) (nv : List Char × List Char)
    (h : ∀ c ∈ st.colors, lowerStr c = c) :
    ∀ c ∈ (processVar st nv).colors, lowerStr c = c := by
  rw [processVar_colors]
  split
  · intro c hc
    rcases List.mem_append.mp hc with hc | hc
    · exact h c hc
    · obtain ⟨m, _, hm⟩ := List.mem_map.mp hc
      rw [← hm]
      exact lowerStr_idem _
  · exact h

/-- Colors accumulated over the variable loop are lowercased. -/
theorem lower_inv_foldl (l : List (List Char × List Char)) :
    ∀ st : CSSScanResult, (∀ c ∈ st.colors, lowerStr c = c) →
      ∀ c ∈ (l.foldl processVar st).colors, lowerStr c = c := by
  induction l with
  | nil => intro st h; exact h
  | cons nv l ih =>
    intro st h
    rw [List.foldl_cons]
    exact ih _ (lower_inv_processVar st nv h)

/-- Colors added by the inline-hex fold are lowercased. -/
theorem lower_inv_hexfold (ms : List (List Char)) :
    ∀ acc : List String, (∀ c ∈ acc, lowerStr c = c) →
      ∀ c ∈ ms.foldl (fun acc m =>
          let hex := lowerStr m.asString
          if hex ∈ acc then acc else acc ++ [hex]) acc,
        lowerStr c = c := by
  induction ms with
  | nil => intro acc h; exact h
  | cons m ms ih =>
    intro acc h
    rw [List.foldl_cons]
    refine ih _ ?_
    dsimp only
    split
    · exact h
    · intro c hc
      rcases List.mem_append.mp hc with hc | hc
      · exact h c hc
      · rw [List.mem_singleton.mp hc]
        exact lowerStr_idem _

/-- Every color a CSS scan returns is fixed under lowercasing. -/
theorem scanCSS_colors_lower (css : String) :
    ∀ c ∈ (scanCSS css).colors, lowerStr c = c := by
  unfold scanCSS
  dsimp only
  exact lower_inv_hexfold _ _
    (lower_inv_foldl _ ⟨[], [], [], []⟩ (by intro c hc; simp at hc))

/-- Assembly helper: quotes, a letter/space run, and quotes again satisfy
the letter-space-or-quote character invariant. -/
theorem all_lsq_append (q1 run qs : List Char)
    (hq1 : ∀ x ∈ q1, isQuote x = true)
    (hrun : ∀ x ∈ run, isLetterSpace x = true)
    (hqs : ∀ x ∈ qs, isQuote x = true) :
    (q1 ++ run ++ qs).all (fun c => isLetterSpace c || isQuote c) = true := by
  rw [List.all_eq_true]
  intro x hx
  rcases List.mem_append.mp hx with hx | hx
  · rcases List.mem_append.mp hx with hx | hx
    · simp [hq1 x hx]
    · simp [hrun x hx]
  · simp [hqs x hx]

/-- Character-level shape of a font-token match: letters, whitespace and
quotes only. -/
theorem fontTokenMatchAt_shape (cs : List Char) (tok rest : List Char)
    (h : fontTokenMatchAt cs = some (tok, rest)) :
    tok.all (fun c => isLetterSpace c || isQuote c) = true := by
  match cs with
  | [] => exact absurd h (by simp [fontTokenMatchAt])
  | c :: tl =>
    unfold fontTokenMatchAt at h
    dsimp only at h
    by_cases hrun : (if isQuote c then tl else c :: tl).takeWhile isLetterSpace = []
    · rw [if_pos hrun] at h
      exact absurd h (by simp)
    · rw [if_neg hrun] at h
      have hq1 : ∀ x ∈ (if isQuote c then [c] else ([] : List Char)), isQuote x = true := by
        split
        · intro x hx
          rw [List.mem_singleton.mp hx]
          assumption
        · intro x hx
          exact absurd hx (List.not_mem_nil x)
      have hrunmem : ∀ x ∈ (if isQuote c then tl else c :: tl).takeWhile isLetterSpace,
          isLetterSpace x = true := fun x hx => List.mem_takeWhile_imp hx
      revert h
      cases hdrop : (if isQuote c then tl else c :: tl).drop
          ((if isQuote c then tl else c :: tl).takeWhile isLetterSpace).length with
      | nil =>
        intro h
        simp only [Option.some.injEq, Prod.mk.injEq] at h
        rw [← h.1]
        have := all_lsq_append _ _ [] hq1 hrunmem (by intro x hx; exact absurd hx (List.not_mem_nil x))
        simpa using this
      | cons c2 t2 =>
        dsimp only
        by_cases hq2 : isQuote c2
        · rw [if_pos hq2]
          intro h
          simp only [Option.some.injEq, Prod.mk.injEq] at h
          rw [← h.1]
          exact all_lsq_append _ _ [c2] hq1 hrunmem
            (by intro x hx; rw [List.mem_singleton.mp hx]; exact hq2)
        · rw [if_neg hq2]
          intro h
          simp only [Option.some.injEq, Prod.mk.injEq] at h
          rw [← h.1]
          have := all_lsq_append _ _ [] hq1 hrunmem (by intro x hx; exact absurd hx (List.not_mem_nil x))
          simpa using this

/-- Every token of the font-token loop obeys the character invariant. -/
theorem fontTokens_shape (fuel : Nat) :
    ∀ cs tok, tok ∈ fontTokens fuel cs →
      tok.all (fun c => isLetterSpace c || isQuote c) = true := by
  induction fuel with
  | zero => intro cs tok h; exact absurd h (by simp [fontTokens])
  | succ fuel ih =>
    intro cs tok h
    match cs with
    | [] => exact absurd h (by simp [fontTokens])
    | c :: tl =>
      unfold fontTokens at h
      revert h
      cases hm : fontTokenMatchAt (c :: tl) with
      | some pr =>
        intro h
        rcases List.mem_cons.mp h with h | h
        · subst h
          exact fontTokenMatchAt_shape _ _ _ (by rw [hm])
        · exact ih _ _ h
      | none =>
        intro h
        exact ih _ _ h

/-- Every font name added by `addFonts` (and every name already obeying
the shape invariant) obeys the shape invariant. -/
theorem addFonts_shape (value : List Char) (fs : List String)
    (h : ∀ f ∈ fs, fontShapeOK f) :
    ∀ f ∈ addFonts fs value, fontShapeOK f := by
  unfold addFonts
  have main : ∀ (toks : List (List Char)),
      (∀ t ∈ toks, t.all (fun c => isLetterSpace c || isQuote c) = true) →
      ∀ (fs : List String), (∀ f ∈ fs, fontShapeOK f) →
      ∀ f ∈ toks.foldl (fun fs tok =>
          let fontName := (trimChars (tok.filter (fun c => ¬ isQuote c))).asString
          if fontName ≠ "" ∧ fontName ∉ fs then fs ++ [fontName] else fs) fs,
        fontShapeOK f := by
    intro toks
    induction toks with
    | nil => intro _ fs h f hf; exact h f hf
    | cons tok toks ih =>
      intro htoks fs h
      rw [List.foldl_cons]
      refine ih (fun t ht => htoks t (List.mem_cons_of_mem _ ht)) _ ?_
      dsimp only
      split
      · next hcond =>
        intro f hf
        rcases List.mem_append.mp hf with hf | hf
        · exact h f hf
        · rw [List.mem_singleton.mp hf]
          have htok := htoks tok (List.mem_cons_self _ _)
          have hfilter : (tok.filter (fun c => ¬ isQuote c)).all isLetterSpace = true := by
            rw [List.all_eq_true]
            intro x hx
            have hmem := List.mem_filter.mp hx
            have hls := List.all_eq_true.mp htok x hmem.1
            rcases Bool.or_eq_true_iff.mp hls with hls | hls
            · exact hls
            · exact absurd hls (by simpa using hmem.2)
          refine ⟨hcond.1, ?_, ?_⟩
          · rw [data_asString]
            exact all_trimChars _ _ hfilter
          · exact trimChars_of_trimmed _
      · exact h
  exact main _ (fun t ht => fontTokens_shape _ _ t ht) fs h

/-- Fonts accumulated by a variable-processing step keep the shape
invariant. -/
theorem shape_inv_processVar (st : CSSScanResult) (nv : List Char × List Char)
    (h : ∀ f ∈ st.fonts, fontShapeOK f) :
    ∀ f ∈ (processVar st nv).fonts, fontShapeOK f := by
  rw [processVar_fonts]
  split
  · exact addFonts_shape _ _ h
  · exact h

/-- Fonts accumulated over the variable loop keep the shape invariant. -/
theorem shape_inv_foldl (l : List (List Char × List Char)) :
    ∀ st : CSSScanResult, (∀ f ∈ st.fonts, fontShapeOK f) →
      ∀ f ∈ (l.foldl processVar st).fonts, fontShapeOK f := by
  induction l with
  | nil => intro st h; exact h
  | cons nv l ih =>
    intro st h
    rw [List.foldl_cons]
    exact ih _ (shape_inv_processVar st nv h)

/-- Every font a CSS scan returns obeys the shape invariant. -/
theorem scanCSS_fonts_shape (css : String) :
    ∀ f ∈ (scanCSS css).fonts, fontShapeOK f := by
  have : (scanCSS css).fonts =
      ((cssVarLoop (css.data.length + 1) css.data).foldl processVar ⟨[], [], [], []⟩).fonts := by
    unfold scanCSS
    dsimp only
  rw [this]
  exact shape_inv_foldl _ ⟨[], [], [], []⟩ (by intro f hf; simp at hf)


/-! ### Tailwind font extraction invariants -/

/-- The captured run of a quoted-font match is made of letters and
whitespace. -/
theorem quotedFontMatchAt_run (cs run rest : List Char)
    (h : quotedFontMatchAt cs = some (run, rest)) :
    run.all isLetterSpace = true := by
  match cs with
  | [] => exact absurd h (by simp [quotedFontMatchAt])
  | c :: tl =>
    unfold quotedFontMatchAt at h
    dsimp only at h
    by_cases hq : isQuote c
    · rw [if_neg (by simp [hq])] at h
      by_cases hrun : tl.takeWhile isLetterSpace = []
      · rw [if_pos hrun] at h
        exact absurd h (by simp)
      · rw [if_neg hrun] at h
        revert h
        cases hdrop : tl.drop (tl.takeWhile isLetterSpace).length with
        | nil => intro h; exact absurd h (by simp)
        | cons c2 t2 =>
          dsimp only
          by_cases hq2 : isQuote c2
          · rw [if_neg (by simp [hq2])]
            have hgoal : ∀ rest' : List Char,
                some (tl.takeWhile isLetterSpace, rest') = some (run, rest) →
                run.all isLetterSpace = true := by
              intro rest' h
              simp only [Option.some.injEq, Prod.mk.injEq] at h
              rw [← h.1, List.all_eq_true]
              exact fun x hx => List.mem_takeWhile_imp hx
            cases t2 with
            | nil => exact hgoal _
            | cons c3 t3 =>
              dsimp only
              by_cases hc3 : c3 = ','
              · rw [if_pos hc3]
                exact hgoal _
              · rw [if_neg hc3]
                exact hgoal _
          · rw [if_pos (by simp [hq2])]
            intro h
            exact absurd h (by simp)
    · rw [if_pos (by simp [hq])] at h
      exact absurd h (by simp)

/-- Invariant of the quoted-font loop: every returned name is non-empty,
trimmed, made of letters and spaces, outside `GENERIC_FONTS.slice(1)`, and
the returned list is duplicate-free. -/
theorem quotedFontLoop_inv (fuel : Nat) :
    ∀ (cs : List Char) (fonts : List String),
      (∀ f ∈ fonts, (f ∉ GENERIC_FONTS.drop 1) ∧ fontShapeOK f) → fonts.Nodup →
      (∀ f ∈ quotedFontLoop fuel cs fonts, (f ∉ GENERIC_FONTS.drop 1) ∧ fontShapeOK f) ∧
        (quotedFontLoop fuel cs fonts).Nodup := by
  induction fuel with
  | zero =>
    intro cs fonts h hnd
    exact ⟨by simpa [quotedFontLoop] using h, by simpa [quotedFontLoop] using hnd⟩
  | succ fuel ih =>
    intro cs fonts h hnd
    match cs with
    | [] => exact ⟨by simpa [quotedFontLoop] using h, by simpa [quotedFontLoop] using hnd⟩
    | c :: tl =>
      unfold quotedFontLoop
      cases hm : quotedFontMatchAt (c :: tl) with
      | none => exact ih tl fonts h hnd
      | some pr =>
        dsimp only
        by_cases hcond : (trimChars pr.1).asString ≠ "" ∧
            (trimChars pr.1).asString ∉ fonts ∧
            (trimChars pr.1).asString ∉ GENERIC_FONTS.drop 1
        · rw [if_pos hcond]
          refine ih pr.2 _ ?_ ?_
          · intro f hf
            rcases List.mem_append.mp hf with hf | hf
            · exact h f hf
            · rw [List.mem_singleton.mp hf]
              have hrun : pr.1.all isLetterSpace = true :=
                quotedFontMatchAt_run _ _ _ (by rw [hm])
              refine ⟨hcond.2.2, hcond.1, ?_, ?_⟩
              · rw [data_asString]
                exact all_trimChars _ _ hrun
              · exact trimChars_of_trimmed _
          · rw [show fonts ++ [(trimChars pr.1).asString] =
                fonts.concat ((trimChars pr.1).asString) from (List.concat_eq_append _ _).symm]
            exact List.Nodup.concat hcond.2.1 hnd
        · rw [if_neg hcond]
          exact ih pr.2 fonts h hnd

/-- Every font of a Tailwind scan is distinct, well-shaped, and not in the
exclusion slice of the generic list. -/
theorem scanTailwindConfig_fonts_inv (config : String) :
    (∀ f ∈ (scanTailwindConfig config).fonts,
      (f ∉ GENERIC_FONTS.drop 1) ∧ fontShapeOK f) ∧
      (scanTailwindConfig config).fonts.Nodup := by
  have hfonts : (scanTailwindConfig config).fonts =
      match findFontBlock (config.data.length + 1) config.data with
      | none => []
      | some block => quotedFontLoop (block.length + 1) block [] := by
    unfold scanTailwindConfig
    dsimp only
  rw [hfonts]
  cases findFontBlock (config.data.length + 1) config.data with
  | none => exact ⟨by intro f hf; simp at hf, List.nodup_nil⟩
  | some block =>
    exact quotedFontLoop_inv _ _ [] (by intro f hf; simp at hf) List.nodup_nil


/-! ### Project analyzer characterization -/

/-- Score and file-count accounting of the `analyzeProject` loop. -/
theorem projectFold_scores (files : List (String × String)) :
    ∀ st : ProjectAcc,
      (files.foldl projectStep st).totalScore =
        st.totalScore +
          ((cssFilesOf files).map (fun fc => (analyzeForGenericPatterns fc.2).score)).sum ∧
      (files.foldl projectStep st).fileCount = st.fileCount + (cssFilesOf files).length := by
  induction files with
  | nil => intro st; simp [cssFilesOf]
  | cons fc files ih =>
    intro st
    rw [List.foldl_cons]
    by_cases hcss : (strEndsWith fc.1 ".css" || strEndsWith fc.1 ".scss") = true
    · have hstep : (projectStep st fc).totalScore =
          st.totalScore + (analyzeForGenericPatterns fc.2).score ∧
          (projectStep st fc).fileCount = st.fileCount + 1 := by
        unfold projectStep
        rw [if_pos hcss]
        exact ⟨rfl, rfl⟩
      have hfiles : cssFilesOf (fc :: files) = fc :: cssFilesOf files :=
        List.filter_cons_of_pos hcss
      obtain ⟨h1, h2⟩ := ih (projectStep st fc)
      rw [hfiles]
      constructor
      · rw [h1, hstep.1]
        simp [add_assoc]
      · rw [h2, hstep.2]
        simp only [List.length_cons]
        omega
    · have hstep : (projectStep st fc).totalScore = st.totalScore ∧
          (projectStep st fc).fileCount = st.fileCount := by
        unfold projectStep
        rw [if_neg hcss]
        by_cases htw : isSubstr "tailwind.config".data fc.1.data = true
        · rw [if_pos htw]
          exact ⟨rfl, rfl⟩
        · rw [if_neg htw]
          exact ⟨rfl, rfl⟩
      have hfiles : cssFilesOf (fc :: files) = cssFilesOf files :=
        List.filter_cons_of_neg (by simpa using hcss)
      obtain ⟨h1, h2⟩ := ih (projectStep st fc)
      rw [hfiles, h1, h2, hstep.1, hstep.2]
      exact ⟨rfl, rfl⟩

/-! ### Replacement counting -/

/-- Occurrence count of a key among the color pairs. -/
theorem countFrom_migColorPairs (roles : List String) (l : List (Nat × String)) (c : String) :
    ((migColorPairs roles l).filter (fun q => q.1 = c)).length =
      (l.filter (fun iv => isGenericColor (lowerStr iv.2) && decide (lowerStr iv.2 = c))).length := by
  induction l with
  | nil => simp [migColorPairs]
  | cons iv l ih =>
    by_cases h : isGenericColor (lowerStr iv.2)
    · simp only [migColorPairs, List.filterMap_cons, h, if_pos] at ih ⊢
      by_cases hc : lowerStr iv.2 = c
      · rw [List.filter_cons_of_pos (by simpa using hc),
          List.filter_cons_of_pos (by rw [h]; simp [hc])]
        simp only [List.length_cons]
        rw [ih]
      · rw [List.filter_cons_of_neg (by simpa using hc),
          List.filter_cons_of_neg (by simp [h, hc])]
        exact ih
    · simp only [migColorPairs, List.filterMap_cons] at ih ⊢
      rw [if_neg (by simp [h]), List.filter_cons_of_neg (by simp [h])]
      exact ih

/-- Occurrence count of a key among the font pairs. -/
theorem countFrom_migFontPairs (body : String) (fonts : List String) (c : String) :
    ((migFontPairs body fonts).filter (fun q => q.1 = c)).length =
      (fonts.filter (fun f => matchesGenericFont f && decide (f = c))).length := by
  induction fonts with
  | nil => simp [migFontPairs]
  | cons f fonts ih =>
    by_cases h : matchesGenericFont f
    · simp only [migFontPairs, List.filterMap_cons, h, if_pos] at ih ⊢
      by_cases hc : f = c
      · rw [List.filter_cons_of_pos (by simpa using hc),
          List.filter_cons_of_pos (by rw [h]; simp [hc])]
        simp only [List.length_cons]
        rw [ih]
      · rw [List.filter_cons_of_neg (by simpa using hc),
          List.filter_cons_of_neg (by simp [h, hc])]
        exact ih
    · simp only [migFontPairs, List.filterMap_cons] at ih ⊢
      rw [if_neg (by simp [h]), List.filter_cons_of_neg (by simp [h])]
      exact ih

/-- Indexing does not change per-value occurrence counts. -/
theorem length_filter_enum (vs : List String) (p : String → Bool) :
    (vs.enum.filter (fun iv => p iv.2)).length = (vs.filter p).length := by
  rw [← List.countP_eq_length_filter, ← List.countP_eq_length_filter]
  have h1 : List.map Prod.snd vs.enum = vs := List.enumFrom_map_snd 0 vs
  conv_rhs => rw [← h1]
  rw [List.countP_map]
  rfl


/-! ### Claim theorems -/

/-- C3: in `generateMigration`, iterating the current colors' values in
insertion order with an index `i` over all values, every value that
case-insensitively matches a reference generic color is mapped, under its
lowercased form, to the target color of role `roles[i % 6]` in the fixed
order primary, secondary, accent, background, surface, text; the last
write wins in `colorMappings` when the same source hex recurs, and one
`{from, to}` pair is appended to `cssReplacements` per matching
occurrence. -/
theorem C3_role_rotation (current : CurrentTokens) (improved : ImprovedTokens) :
    (generateMigration current improved).cssReplacements =
      (specColorPairs (recordValues current.colors) improved.colors).map
        (fun p => ⟨p.1, p.2⟩) ++
      (migFontPairs improved.typography.body.family current.fonts).map
        (fun p => ⟨p.1, p.2⟩) ∧
    ∀ c : String,
      recordGet? (generateMigration current improved).colorMappings c =
        lastAssoc (specColorPairs (recordValues current.colors) improved.colors) c := by
  constructor
  · rw [generateMigration_eq, ← migColorPairs_roleValues]
  · intro c
    rw [generateMigration_eq]
    dsimp only
    rw [recordGet?_foldl_set, migColorPairs_roleValues]
    simp [recordGet?, List.find?_nil]

/-- C4: a text with 1 or 2 scanned color occurrences (nonzero) yields
exactly one `bland-palette` issue of severity medium and a 10-point
deduction; with 0 or 3+ occurrences the issue and the deduction are
absent, all else equal. -/
theorem C4_bland_palette (css : String) :
    (analyzeForGenericPatterns css).issues.filter
        (fun i => i.type = IssueType.blandPalette) =
      (if 0 < (scanCSS css).colors.length ∧ (scanCSS css).colors.length < 3 then
        [blandPaletteIssue (scanCSS css).colors] else []) ∧
    (blandPaletteIssue (scanCSS css).colors).severity = Severity.medium ∧
    (analyzeForGenericPatterns css).score =
      max 0 (100
        - 15 * (((scanCSS css).colors.filter
            (fun c => isGenericColor (lowerStr c))).length : Int)
        - 10 * (((scanCSS css).fonts.filter matchesGenericFont).length : Int)
        - (if 0 < (scanCSS css).colors.length ∧ (scanCSS css).colors.length < 3 then
            10 else 0)) := by
  refine ⟨?_, rfl, ?_⟩
  · unfold analyzeForGenericPatterns
    rw [analyzeScan_issues]
    by_cases h : 0 < (scanCSS css).colors.length ∧ (scanCSS css).colors.length < 3 <;>
      simp [h, List.filter_append, List.filter_map, Function.comp,
        genericColorIssue, genericFontIssue, blandPaletteIssue]
  · unfold analyzeForGenericPatterns
    exact analyzeScan_score _

/-- C5: `currentScore` is the arithmetic mean of the per-`.css`/`.scss`
file analysis scores, rounded half-up to the nearest integer, and is
exactly 50 when the files map contains no such file. -/
theorem C5_current_score (files : List (String × String)) :
    (analyzeProject files).currentScore =
      if (cssFilesOf files).length = 0 then 50
      else mathRoundDiv
        (((cssFilesOf files).map (fun fc => (analyzeForGenericPatterns fc.2).score)).sum)
        (cssFilesOf files).length := by
  unfold analyzeProject
  dsimp only
  obtain ⟨h1, h2⟩ := projectFold_scores files ⟨[], [], [], 0, 0⟩
  rw [h1, h2]
  by_cases h : (cssFilesOf files).length = 0
  · simp [h]
  · simp [h, Nat.pos_of_ne_zero h]

/-- C9: the analyzer only ever emits `generic-color` issues of severity
high, `generic-font` issues of severity medium, and `bland-palette`
issues of severity medium; it never emits a `low-contrast` issue or a
severity-`low` issue. -/
theorem C9_issue_kinds (css : String) :
    ∀ i ∈ (analyzeForGenericPatterns css).issues,
      ((i.type = IssueType.genericColor ∧ i.severity = Severity.high) ∨
       (i.type = IssueType.genericFont ∧ i.severity = Severity.medium) ∨
       (i.type = IssueType.blandPalette ∧ i.severity = Severity.medium)) ∧
      i.type ≠ IssueType.lowContrast ∧ i.severity ≠ Severity.low := by
  intro i hi
  unfold analyzeForGenericPatterns at hi
  rw [analyzeScan_issues] at hi
  rcases List.mem_append.mp hi with hi | hi
  · rcases List.mem_append.mp hi with hi | hi
    · obtain ⟨c, _, hc⟩ := List.mem_map.mp hi
      rw [← hc]
      exact ⟨Or.inl ⟨rfl, rfl⟩, by simp [genericColorIssue], by simp [genericColorIssue]⟩
    · obtain ⟨f, _, hf⟩ := List.mem_map.mp hi
      rw [← hf]
      exact ⟨Or.inr (Or.inl ⟨rfl, rfl⟩), by simp [genericFontIssue], by simp [genericFontIssue]⟩
  · revert hi
    split
    · intro hi
      rw [List.mem_singleton.mp hi]
      exact ⟨Or.inr (Or.inr ⟨rfl, rfl⟩), by simp [blandPaletteIssue], by simp [blandPaletteIssue]⟩
    · intro hi
      exact absurd hi (List.not_mem_nil i)

/-- Witness for C9 at a concrete input: the single issue of analyzing
`#3b82f6` is a generic-color issue of severity high, not low-contrast and
not severity low. -/
theorem C9_witness :
    (((genericColorIssue "#3b82f6").type = IssueType.genericColor ∧
      (genericColorIssue "#3b82f6").severity = Severity.high) ∨
     ((genericColorIssue "#3b82f6").type = IssueType.genericFont ∧
      (genericColorIssue "#3b82f6").severity = Severity.medium) ∨
     ((genericColorIssue "#3b82f6").type = IssueType.blandPalette ∧
      (genericColorIssue "#3b82f6").severity = Severity.medium)) ∧
    (genericColorIssue "#3b82f6").type ≠ IssueType.lowContrast ∧
    (genericColorIssue "#3b82f6").severity ≠ Severity.low :=
  C9_issue_kinds "#3b82f6" _ (by decide)


/-- C6: every key of `colorMappings` and of `fontMappings` appears as the
`from` field of at least one `cssReplacements` entry, and the number of
entries with a given `from` value equals the number of issuing generic
color occurrences plus issuing generic font occurrences — so a `from`
value is duplicated only when the issuing occurrence itself repeats in
the input. -/
theorem C6_invariant (current : CurrentTokens) (improved : ImprovedTokens) :
    (∀ k ∈ recordKeys (generateMigration current improved).colorMappings ++
        recordKeys (generateMigration current improved).fontMappings,
      ∃ r ∈ (generateMigration current improved).cssReplacements, r.fromS = k) ∧
    ∀ c : String,
      ((generateMigration current improved).cssReplacements.filter
          (fun r => r.fromS = c)).length =
        ((recordValues current.colors).filter
            (fun v => isGenericColor (lowerStr v) && decide (lowerStr v = c))).length +
        (current.fonts.filter (fun f => matchesGenericFont f && decide (f = c))).length ∧
      (2 ≤ ((generateMigration current improved).cssReplacements.filter
            (fun r => r.fromS = c)).length →
        2 ≤ ((recordValues current.colors).filter
              (fun v => isGenericColor (lowerStr v) && decide (lowerStr v = c))).length +
            (current.fonts.filter (fun f => matchesGenericFont f && decide (f = c))).length) := by
  constructor
  · intro k hk
    rw [generateMigration_eq] at hk ⊢
    dsimp only at hk ⊢
    rcases List.mem_append.mp hk with hk | hk
    · rcases mem_keys_foldl_set _ _ _ hk with h | ⟨p, hp, hpk⟩
      · exact absurd h (by simp [recordKeys])
      · exact ⟨⟨p.1, p.2⟩, List.mem_append_left _ (List.mem_map_of_mem _ hp), hpk⟩
    · rcases mem_keys_foldl_set _ _ _ hk with h | ⟨p, hp, hpk⟩
      · exact absurd h (by simp [recordKeys])
      · exact ⟨⟨p.1, p.2⟩, List.mem_append_right _ (List.mem_map_of_mem _ hp), hpk⟩
  · intro c
    have hcount :
        ((generateMigration current improved).cssReplacements.filter
            (fun r => r.fromS = c)).length =
          ((recordValues current.colors).filter
              (fun v => isGenericColor (lowerStr v) && decide (lowerStr v = c))).length +
          (current.fonts.filter (fun f => matchesGenericFont f && decide (f = c))).length := by
      rw [generateMigration_eq]
      dsimp only
      rw [List.filter_append, List.length_append, List.filter_map, List.filter_map,
        List.length_map, List.length_map]
      have hc1 := countFrom_migColorPairs (roleValues improved.colors)
        (recordValues current.colors).enum c
      have hc2 := countFrom_migFontPairs improved.typography.body.family current.fonts c
      rw [show ((fun r : Replacement => decide (r.fromS = c)) ∘
            (fun p : String × String => (⟨p.1, p.2⟩ : Replacement))) =
          (fun q : String × String => decide (q.1 = c)) from rfl]
      rw [hc1, hc2]
      have h3 := length_filter_enum (recordValues current.colors)
        (fun v => isGenericColor (lowerStr v) && decide (lowerStr v = c))
      simp only [] at h3
      rw [h3]
    exact ⟨hcount, fun h => hcount ▸ h⟩

/-- Witness for C6 at a concrete input: with one generic current color and
one generic current font, both mapping keys appear as `from` values, and
the count identity holds at `#3b82f6`. -/
theorem C6_witness :
    (∃ r ∈ (generateMigration ⟨[("a", "#3b82f6")], ["Inter"]⟩
        ⟨improvedColorsConst, improvedTypographyConst⟩).cssReplacements,
      r.fromS = "#3b82f6") ∧
    ((generateMigration ⟨[("a", "#3b82f6")], ["Inter"]⟩
        ⟨improvedColorsConst, improvedTypographyConst⟩).cssReplacements.filter
        (fun r => r.fromS = "#3b82f6")).length =
      ((recordValues ([("a", "#3b82f6")] : Record)).filter
          (fun v => isGenericColor (lowerStr v) && decide (lowerStr v = "#3b82f6"))).length +
      ((["Inter"] : List String).filter
          (fun f => matchesGenericFont f && decide (f = "#3b82f6"))).length := by
  refine ⟨(C6_invariant ⟨[("a", "#3b82f6")], ["Inter"]⟩
      ⟨improvedColorsConst, improvedTypographyConst⟩).1 "#3b82f6" (by decide),
    ((C6_invariant ⟨[("a", "#3b82f6")], ["Inter"]⟩
      ⟨improvedColorsConst, improvedTypographyConst⟩).2 "#3b82f6").1⟩

/-- C7: the scanners are total functions whose value on empty input is the
empty result with the maximal score 100, and the depth-counter brace scan
of `scanTailwindConfig` treats unmatched braces after `colors:` as
block-not-found, yielding an empty color mapping instead of failing. -/
theorem C7_totality :
    scanCSS "" = ⟨[], [], [], []⟩ ∧
    analyzeForGenericPatterns "" = ⟨100, [], []⟩ ∧
    scanTailwindConfig "" = ⟨[], [], []⟩ ∧
    ∀ config : String, tailwindColorBlock config = [] →
      (scanTailwindConfig config).colors = [] := by
  refine ⟨by decide, by decide, by decide, ?_⟩
  intro config h
  unfold scanTailwindConfig
  dsimp only
  rw [h]
  simp

/-- Witness for C7 at a concrete unbalanced input: the brace scan of a
`colors:` block that never closes finds no block, and the scan returns an
empty color mapping. -/
theorem C7_witness :
    tailwindColorBlock "colors: \x7b brand: \x7b 500: '#3b82f6' \x7d" = [] ∧
    (scanTailwindConfig "colors: \x7b brand: \x7b 500: '#3b82f6' \x7d").colors = [] :=
  ⟨by decide, C7_totality.2.2.2 "colors: \x7b brand: \x7b 500: '#3b82f6' \x7d" (by decide)⟩


/-- C8: Tailwind font extraction returns quoted, letters-and-spaces-only
names (non-empty and trimmed), excludes every name of the generic-font
reference list except its first entry `Inter` (the exclusion list is
`GENERIC_FONTS.slice(1)`), and adds each surviving distinct name once. -/
theorem C8_fonts (config : String) :
    (∀ f ∈ (scanTailwindConfig config).fonts,
      f ∉ GENERIC_FONTS.drop 1 ∧ fontShapeOK f) ∧
    (scanTailwindConfig config).fonts.Nodup ∧
    "Inter" ∈ GENERIC_FONTS ∧ "Inter" ∉ GENERIC_FONTS.drop 1 := by
  obtain ⟨h1, h2⟩ := scanTailwindConfig_fonts_inv config
  exact ⟨h1, h2, by decide, by decide⟩

/-- Witness for C8 at a concrete config: `Inter` passes the exclusion
filter (being the first generic entry) while `Roboto` is excluded, and
the returned names obey the claimed shape. -/
theorem C8_witness :
    (scanTailwindConfig "fontFamily: \x7b sans: ['Inter', 'Roboto', 'Custom Font'] \x7d").fonts =
      ["Inter", "Custom Font"] ∧
    ("Inter" ∉ GENERIC_FONTS.drop 1 ∧ fontShapeOK "Inter") ∧
    "Roboto" ∈ GENERIC_FONTS.drop 1 :=
  ⟨by decide,
   (C8_fonts "fontFamily: \x7b sans: ['Inter', 'Roboto', 'Custom Font'] \x7d").1 "Inter" (by decide),
   by decide⟩

/-- C10: every font name returned by the CSS scanner is a non-empty,
trimmed string of ASCII letters and whitespace only; consequently a
hyphenated font-family name such as `system-ui` or `sans-serif` can never
appear verbatim in the fonts sequence. -/
theorem C10_font_shape (css : String) :
    ∀ f ∈ (scanCSS css).fonts,
      fontShapeOK f ∧ f ≠ "system-ui" ∧ f ≠ "sans-serif" := by
  intro f hf
  have h := scanCSS_fonts_shape css f hf
  refine ⟨h, ?_, ?_⟩
  · intro hEq
    have hall := h.2.1
    rw [hEq] at hall
    exact absurd hall (by decide)
  · intro hEq
    have hall := h.2.1
    rw [hEq] at hall
    exact absurd hall (by decide)

/-- Witness for C10 at a concrete input: `system-ui` is split at the
hyphen into the separate letter runs `system` and `ui`, and the first of
them obeys the shape invariant. -/
theorem C10_witness :
    (scanCSS "--font-family: system-ui;").fonts = ["system", "ui"] ∧
    (fontShapeOK "system" ∧ "system" ≠ "system-ui" ∧ "system" ≠ "sans-serif") :=
  ⟨by decide, C10_font_shape "--font-family: system-ui;" "system" (by decide)⟩


/-- Counterexample to C1 as stated: the text `#3b82f6` contains exactly
one reference generic color exactly once, yet the score is 75, not 85 —
the single color also triggers the 10-point bland-palette deduction. -/
theorem C1_counterexample :
    (scanCSS "#3b82f6").colors = ["#3b82f6"] ∧
    (scanCSS "#3b82f6").colors.filter (fun x => isGenericColor (lowerStr x)) = ["#3b82f6"] ∧
    (scanCSS "#3b82f6").fonts = [] ∧
    (analyzeForGenericPatterns "#3b82f6").score = 75 ∧
    ¬ (analyzeForGenericPatterns "#3b82f6").score = 85 := by
  refine ⟨by decide, by decide, by decide, by decide, by decide⟩

/-- C1 (amended): for every text whose scan finds exactly one generic
color occurrence `c`, no generic fonts, and at least three colors in
total (so that neither the generic-font nor the bland-palette deduction
applies), the score is exactly 85 and exactly one `generic-color` issue
of severity high is present, whose offending value is that color, itself
already lowercased. -/
theorem C1_amended (css : String) (c : String)
    (hc : (scanCSS css).colors.filter (fun x => isGenericColor (lowerStr x)) = [c])
    (hf : (scanCSS css).fonts.filter matchesGenericFont = [])
    (hn : 3 ≤ (scanCSS css).colors.length) :
    (analyzeForGenericPatterns css).score = 85 ∧
    (analyzeForGenericPatterns css).issues.filter
        (fun i => i.type = IssueType.genericColor) = [genericColorIssue c] ∧
    (genericColorIssue c).severity = Severity.high ∧
    (genericColorIssue c).value = c ∧
    lowerStr c = c := by
  have hbland : ¬ (0 < (scanCSS css).colors.length ∧ (scanCSS css).colors.length < 3) := by
    omega
  refine ⟨?_, ?_, rfl, rfl, ?_⟩
  · unfold analyzeForGenericPatterns
    rw [analyzeScan_score, hc, hf]
    simp [hbland]
  · unfold analyzeForGenericPatterns
    rw [analyzeScan_issues, hc, hf]
    simp [hbland, genericColorIssue]
  · have hm : c ∈ (scanCSS css).colors.filter (fun x => isGenericColor (lowerStr x)) := by
      rw [hc]
      exact List.mem_singleton.mpr rfl
    exact scanCSS_colors_lower css c (List.mem_filter.mp hm).1

/-- Witness for the amended C1 at a concrete input with three colors, one
of them generic, and no fonts. -/
theorem C1_amended_witness :
    (analyzeForGenericPatterns ":root \x7b --a: #3b82f6; --b: #111111; --c: #222222; \x7d").score
        = 85 ∧
    (analyzeForGenericPatterns
        ":root \x7b --a: #3b82f6; --b: #111111; --c: #222222; \x7d").issues.filter
        (fun i => i.type = IssueType.genericColor) = [genericColorIssue "#3b82f6"] ∧
    (genericColorIssue "#3b82f6").severity = Severity.high ∧
    (genericColorIssue "#3b82f6").value = "#3b82f6" ∧
    lowerStr "#3b82f6" = "#3b82f6" :=
  C1_amended ":root \x7b --a: #3b82f6; --b: #111111; --c: #222222; \x7d" "#3b82f6"
    (by decide) (by decide) (by decide)

/-- Counterexample to C2 as stated: a Tailwind-extracted color keeps its
original casing (`#3B82F6`), so it survives the verbatim preserve filter
against the lowercase entry `#3b82f6`, and is then mapped under its
lowercased form — which appears verbatim in the preserve list. -/
theorem C2_counterexample :
    "#3b82f6" ∈ (UpgradeOptions.mk
      [("tailwind.config.js", "colors: \x7b primary: '#3B82F6' \x7d")]
      ["#3b82f6"] []).preserveColors ∧
    "#3b82f6" ∈ recordKeys (generateUpgrade (UpgradeOptions.mk
      [("tailwind.config.js", "colors: \x7b primary: '#3B82F6' \x7d")]
      ["#3b82f6"] [])).migration.colorMappings := by
  refine ⟨by decide, by decide⟩

/-- C2 (amended): every key of `colorMappings` produced by
`generateUpgrade` is a generic reference color equal to the lowercase of
some extracted current color value (a value of the report's extracted
colors) that does not itself appear verbatim in the preserve list; a
preserved color can therefore only surface as a key through a
differently-cased extracted variant, never through a value verbatim in
the list. -/
theorem C2_amended (options : UpgradeOptions) :
    ∀ k ∈ recordKeys (generateUpgrade options).migration.colorMappings,
      isGenericColor k = true ∧
      ∃ v ∈ recordValues (generateUpgrade options).report.extractedTokens.colors,
        lowerStr v = k ∧ v ∉ options.preserveColors := by
  intro k hk
  unfold generateUpgrade at hk ⊢
  dsimp only at hk ⊢
  rw [generateMigration_eq] at hk
  dsimp only at hk
  rcases mem_keys_foldl_set _ _ _ hk with h | ⟨p, hp, hpk⟩
  · exact absurd h (by simp [recordKeys])
  · unfold migColorPairs at hp
    obtain ⟨iv, hiv, hivp⟩ := List.mem_filterMap.mp hp
    by_cases hgen : isGenericColor (lowerStr iv.2)
    · rw [if_pos hgen] at hivp
      have hp1 : p.1 = lowerStr iv.2 := by
        rw [← Option.some.inj hivp]
      have hk2 : k = lowerStr iv.2 := by rw [← hpk, hp1]
      subst hk2
      have h1 : List.map Prod.snd (recordValues
          ((analyzeProject options.files).extractedTokens.colors.filter
            (fun kv => ¬ options.preserveColors.contains kv.2))).enum =
          recordValues ((analyzeProject options.files).extractedTokens.colors.filter
            (fun kv => ¬ options.preserveColors.contains kv.2)) :=
        List.enumFrom_map_snd 0 _
      have hsnd : iv.2 ∈ recordValues
          ((analyzeProject options.files).extractedTokens.colors.filter
            (fun kv => ¬ options.preserveColors.contains kv.2)) := by
        rw [← h1]
        exact List.mem_map_of_mem Prod.snd hiv
      unfold recordValues at hsnd
      obtain ⟨kv, hkv, hkveq⟩ := List.mem_map.mp hsnd
      have hkvext : kv ∈ (analyzeProject options.files).extractedTokens.colors :=
        (List.mem_filter.mp hkv).1
      have hvmem : iv.2 ∈ recordValues (analyzeProject options.files).extractedTokens.colors := by
        unfold recordValues
        rw [← hkveq]
        exact List.mem_map_of_mem _ hkvext
      refine ⟨hgen, iv.2, hvmem, rfl, ?_⟩
      have hpred := (List.mem_filter.mp hkv).2
      intro hmem
      rw [hkveq] at hpred
      simp only [decide_eq_true_eq] at hpred
      exact hpred (List.contains_iff_exists_mem_beq.mpr ⟨iv.2, hmem, by simp⟩)
    · rw [if_neg hgen] at hivp
      exact absurd hivp (by simp)

/-- Witness for the amended C2 at the counterexample input: the key
`#3b82f6` is a generic color and stems from an extracted current color
value of the report that is outside the preserve list. -/
theorem C2_amended_witness :
    isGenericColor "#3b82f6" = true ∧
    ∃ v ∈ recordValues (generateUpgrade (UpgradeOptions.mk
        [("tailwind.config.js", "colors: \x7b primary: '#3B82F6' \x7d")]
        ["#3b82f6"] [])).report.extractedTokens.colors,
      lowerStr v = "#3b82f6" ∧
      v ∉ (UpgradeOptions.mk
        [("tailwind.config.js", "colors: \x7b primary: '#3B82F6' \x7d")]
        ["#3b82f6"] []).preserveColors :=
  C2_amended (UpgradeOptions.mk
    [("tailwind.config.js", "colors: \x7b primary: '#3B82F6' \x7d")]
    ["#3b82f6"] []) "#3b82f6" (by decide)

end NanoUI
